import Mathlib

/-!
Verification of the Openpilot-Deepdive training pipeline core
(`data.py` and `main.py`): the windowed sequence sampler, the pose
localization transform, the truncated-BPTT optimizer-step loop, the
validation-skip control flow, and the forward-coordinate clamp.

All numeric values are modelled over `ℚ`; machine floats of the source
are treated as exact rationals.  Fallible code paths are modelled with
`Except`.
-/

/-! ## Windowed sequence sampler (`Comma2k19SequenceDataset.__getitem__`, data.py lines 208-218) -/

/-- Errors the sampling path of `Comma2k19SequenceDataset.__getitem__` can raise:
`sequenceTooShort` models the explicit `RuntimeError('... is too short')`;
`emptyRandRange` models the `ValueError` numpy's `random.randint(low, high)`
raises when `low >= high`. -/
inductive SampleError where
  | sequenceTooShort : SampleError
  | emptyRandRange : SampleError
  deriving DecidableEq, Repr

/-- `np.random.randint(low, high)`: draws uniformly from `[low, high)`.
The random source is made explicit as a draw `r`; a valid call returns
`low + r % (high - low)`.  When `low >= high` numpy raises `ValueError`. -/
def randint (low high r : Nat) : Except SampleError Nat :=
  if low < high then Except.ok (low + r % (high - low)) else Except.error SampleError.emptyRandRange

/-- The window sampling logic of `Comma2k19SequenceDataset.__getitem__`:

    if seq_length < self.fix_seq_length + self.num_pts: raise RuntimeError(... too short ...)
    seq_length_delta = seq_length - (self.fix_seq_length + self.num_pts)
    seq_length_delta = np.random.randint(1, seq_length_delta+1)
    seq_start_idx = seq_length_delta
    seq_end_idx = seq_length_delta + self.fix_seq_length

Returns `(seq_start_idx, seq_end_idx)`. -/
def sampleWindow (seqLength fixSeqLength numPts r : Nat) : Except SampleError (Nat × Nat) :=
  if seqLength < fixSeqLength + numPts then
    Except.error SampleError.sequenceTooShort
  else
    match randint 1 (seqLength - (fixSeqLength + numPts) + 1) r with
    | Except.error e => Except.error e
    | Except.ok delta => Except.ok (delta, delta + fixSeqLength)

/-- C2 counterexample.
At `seq_length = fix_seq_length + num_pts` exactly (50 = 40 + 10) the
length guard passes but `np.random.randint(1, 0+1)` has an empty range and
raises `ValueError`, so the sampler does not succeed, contradicting
"succeeds for every sequence_length ≥ fix_seq_length + num_pts (including
equality)". -/
theorem sampleWindow_equality_fails :
    sampleWindow 50 40 10 0 = Except.error SampleError.emptyRandRange := rfl

/-- C2 (amended): the sampler raises `SequenceTooShort` exactly when
`sequence_length < fix_seq_length + num_pts`; it succeeds for every
`sequence_length ≥ fix_seq_length + num_pts + 1`; at
`sequence_length = fix_seq_length + num_pts` exactly it fails with the
empty-random-range error (numpy `randint(1, 1)`), not with
`SequenceTooShort` and not with success. -/
theorem sampleWindow_error_spec (seqLength fixSeqLength numPts r : Nat) :
    (sampleWindow seqLength fixSeqLength numPts r = Except.error SampleError.sequenceTooShort
      ↔ seqLength < fixSeqLength + numPts)
    ∧ (seqLength = fixSeqLength + numPts →
        sampleWindow seqLength fixSeqLength numPts r = Except.error SampleError.emptyRandRange)
    ∧ (fixSeqLength + numPts + 1 ≤ seqLength →
        ∃ s e, sampleWindow seqLength fixSeqLength numPts r = Except.ok (s, e)) := by
  refine ⟨?_, ?_, ?_⟩
  · unfold sampleWindow randint
    by_cases h1 : seqLength < fixSeqLength + numPts
    · simp [h1]
    · by_cases h2 : 1 < seqLength - (fixSeqLength + numPts) + 1
      · simp [h1, h2]
      · simp [h1, h2]
  · intro h
    unfold sampleWindow randint
    have h1 : ¬ seqLength < fixSeqLength + numPts := by omega
    have h2 : ¬ 1 < seqLength - (fixSeqLength + numPts) + 1 := by omega
    simp [h1, h2]
  · intro h
    unfold sampleWindow randint
    have h1 : ¬ seqLength < fixSeqLength + numPts := by omega
    have h2 : 1 < seqLength - (fixSeqLength + numPts) + 1 := by omega
    simp only [if_neg h1, if_pos h2]
    exact ⟨_, _, rfl⟩

/-- C2 witness: length 39 with `fix_seq_length = 40`, `num_pts = 10`
raises `SequenceTooShort` (39 < 50), and length 51 succeeds. -/
theorem sampleWindow_error_spec_witness :
    sampleWindow 39 40 10 0 = Except.error SampleError.sequenceTooShort :=
  (sampleWindow_error_spec 39 40 10 0).1.mpr (by decide)

/-- C3: whenever the sampler returns a window `(s, e)`, we have
`e - s = fix_seq_length`, `e + num_pts ≤ sequence_length`, and the start
index lies in `[1, sequence_length - fix_seq_length - num_pts]` inclusive;
this holds for every parameter triple and every draw of the random
source. -/
theorem sampleWindow_ok_spec (seqLength fixSeqLength numPts r s e : Nat)
    (h : sampleWindow seqLength fixSeqLength numPts r = Except.ok (s, e)) :
    e - s = fixSeqLength ∧ e + numPts ≤ seqLength
      ∧ 1 ≤ s ∧ s ≤ seqLength - fixSeqLength - numPts := by
  unfold sampleWindow randint at h
  by_cases h1 : seqLength < fixSeqLength + numPts
  · simp [h1] at h
  · by_cases h2 : 1 < seqLength - (fixSeqLength + numPts) + 1
    · simp only [if_neg h1, if_pos h2, Except.ok.injEq, Prod.mk.injEq] at h
      obtain ⟨hs, he⟩ := h
      have hmod : r % (seqLength - (fixSeqLength + numPts) + 1 - 1)
          < seqLength - (fixSeqLength + numPts) + 1 - 1 :=
        Nat.mod_lt _ (by omega)
      omega
    · simp [h1, h2] at h

/-- C3 witness: at `sequence_length = 51`, `fix_seq_length = 40`,
`num_pts = 10`, draw 0, the sampler returns `(1, 41)` and the window
contract holds there. -/
theorem sampleWindow_ok_spec_witness :
    41 - 1 = 40 ∧ 41 + 10 ≤ 51 ∧ 1 ≤ 1 ∧ 1 ≤ 51 - 40 - 10 :=
  sampleWindow_ok_spec 51 40 10 0 1 41 rfl

/-! ## Truncated-BPTT training loop (`main`, main.py lines 154-183)

The inner loop over a window accumulates `total_loss += loss_t / optimize_per_n_step`
and runs `zero_grad; backward; optimizer.step(); lr_scheduler.step(); total_loss = 0`
whenever `(t + 1) % optimize_per_n_step == 0`; after the loop, it runs one more
optimizer step iff `not isinstance(total_loss, int)`.  We model the per-step loss
values as extended rationals (`nonfin` standing for NaN/Inf, absorbing under
arithmetic), and record the accumulated loss consumed by each optimizer step. -/

/-- A float loss value: finite (as a rational) or non-finite (NaN/Inf). -/
inductive FVal where
  | fin : ℚ → FVal
  | nonfin : FVal
  deriving DecidableEq, Repr

/-- Float addition: non-finite values are absorbing. -/
def FVal.add : FVal → FVal → FVal
  | FVal.fin a, FVal.fin b => FVal.fin (a + b)
  | _, _ => FVal.nonfin

/-- Division of a loss by the integer `optimize_per_n_step`. -/
def FVal.divNat : FVal → Nat → FVal
  | FVal.fin a, n => FVal.fin (a / (n : ℚ))
  | FVal.nonfin, _ => FVal.nonfin

/-- The state of `total_loss`: it starts as the Python int `0` and is reset to
it after every optimizer step; after any `+=` it is a tensor.
`isinstance(total_loss, int)` is true exactly in the `intZero` state. -/
inductive Accum where
  | intZero : Accum
  | tensor : FVal → Accum
  deriving DecidableEq, Repr

/-- `total_loss += v`: the Python int `0` plus a tensor is that tensor. -/
def Accum.addLoss : Accum → FVal → FVal
  | Accum.intZero, v => v
  | Accum.tensor u, v => FVal.add u v

/-- `1` if a final flush would run (`not isinstance(total_loss, int)`), else `0`. -/
def Accum.flushCount : Accum → Nat
  | Accum.intZero => 0
  | Accum.tensor _ => 1

/-- The loop `for t in range(seq_length)` of main.py lines 156-177, carrying
`total_loss` and the list of accumulated losses consumed by the optimizer
steps taken so far.  `losses` are the remaining per-step losses
`cls_loss + mtp_alpha * reg_loss.mean()`, `t` the current step index. -/
def trainLoopSteps (T : Nat) : List FVal → Nat → Accum → List FVal → Accum × List FVal
  | [], _, accum, steps => (accum, steps)
  | l :: rest, t, accum, steps =>
    let v := accum.addLoss (l.divNat T)
    if (t + 1) % T = 0 then
      trainLoopSteps T rest (t + 1) Accum.intZero (steps ++ [v])
    else
      trainLoopSteps T rest (t + 1) (Accum.tensor v) steps

/-- One window of the training loop (main.py lines 154-183): run the step loop
from `t = 0` with `total_loss = 0` (the int), then, iff
`not isinstance(total_loss, int)`, take one final optimizer step on the
remaining accumulated loss.  Returns the accumulated losses consumed by the
optimizer steps, in order. -/
def trainWindow (losses : List FVal) (T : Nat) : List FVal :=
  match trainLoopSteps T losses 0 Accum.intZero [] with
  | (Accum.intZero, steps) => steps
  | (Accum.tensor v, steps) => steps ++ [v]

/-- Helper: step count of the loop.  Along the real execution the accumulator
is the Python int `0` exactly when the step counter `t` sits on a truncation
boundary (`t % T = 0`); under that invariant, the optimizer steps recorded by
the rest of the loop plus a pending final flush equal the boundaries crossed
in `(t, t + losses.length]` plus one for a trailing partial segment. -/
lemma trainLoopSteps_count (T : Nat) (hT : 0 < T) :
    ∀ (losses : List FVal) (t : Nat) (accum : Accum) (steps : List FVal),
    ((accum = Accum.intZero) ↔ t % T = 0) →
    ((trainLoopSteps T losses t accum steps).2).length
      + ((trainLoopSteps T losses t accum steps).1).flushCount
    = steps.length + ((t + losses.length) / T - t / T)
        + (if (t + losses.length) % T = 0 then 0 else 1) := by
  intro losses
  induction losses with
  | nil =>
    intro t accum steps hinv
    simp only [trainLoopSteps, List.length_nil, Nat.add_zero]
    cases accum with
    | intZero =>
      have ht : t % T = 0 := hinv.mp rfl
      simp [Accum.flushCount, ht, Nat.sub_self]
    | tensor v =>
      have ht : ¬ t % T = 0 := by
        intro h
        exact absurd (hinv.mpr h) (by simp)
      simp [Accum.flushCount, ht, Nat.sub_self]
  | cons l rest ih =>
    intro t accum steps hinv
    simp only [trainLoopSteps, List.length_cons]
    have hadd : t + 1 + rest.length = t + (rest.length + 1) := by omega
    by_cases hb : (t + 1) % T = 0
    · rw [if_pos hb]
      rw [ih (t + 1) Accum.intZero _ (by simp [hb]), hadd]
      have hsd : (t + 1) / T = t / T + 1 :=
        Nat.succ_div_of_dvd (Nat.dvd_of_mod_eq_zero hb)
      have hmono : (t + 1) / T ≤ (t + (rest.length + 1)) / T :=
        Nat.div_le_div_right (by omega)
      simp only [List.length_append, List.length_cons, List.length_nil]
      rw [hsd]
      rw [hsd] at hmono
      set a := t / T with ha
      set X := (t + (rest.length + 1)) / T with hX
      set i := (if (t + (rest.length + 1)) % T = 0 then (0 : Nat) else 1) with hi
      omega
    · rw [if_neg hb]
      rw [ih (t + 1) (Accum.tensor (accum.addLoss (l.divNat T))) _ (by simp [hb]), hadd]
      have hsd : (t + 1) / T = t / T :=
        Nat.succ_div_of_not_dvd (fun hd => hb (Nat.mod_eq_zero_of_dvd hd))
      rw [hsd]

/-- Helper: the window step count is the loop's step count plus the final
flush (`if not isinstance(total_loss, int)` in main.py lines 179-183). -/
lemma trainWindow_length_eq (losses : List FVal) (T : Nat) :
    (trainWindow losses T).length
      = ((trainLoopSteps T losses 0 Accum.intZero []).2).length
        + ((trainLoopSteps T losses 0 Accum.intZero []).1).flushCount := by
  unfold trainWindow
  rcases hr : trainLoopSteps T losses 0 Accum.intZero [] with ⟨a, steps⟩
  cases a with
  | intZero => simp [Accum.flushCount]
  | tensor v => simp [Accum.flushCount]

/-- Helper: `(n + T - 1) / T` (ceiling division) in terms of floor division. -/
lemma ceil_div_eq (n T : Nat) (hT : 0 < T) :
    (n + T - 1) / T = n / T + (if n % T = 0 then 0 else 1) := by
  by_cases hm : n % T = 0
  · obtain ⟨q, hq⟩ := Nat.dvd_of_mod_eq_zero hm
    subst hq
    rw [if_pos hm, Nat.add_zero, Nat.add_sub_assoc (by omega : 1 ≤ T),
      Nat.mul_add_div hT, Nat.mul_div_cancel_left _ hT,
      Nat.div_eq_of_lt (by omega : T - 1 < T), Nat.add_zero]
  · rw [if_neg hm]
    have hd := Nat.div_add_mod n T
    have hmlt : n % T < T := Nat.mod_lt _ hT
    have h1 : n + T - 1 = T * (n / T) + (n % T - 1 + T) := by omega
    rw [h1, Nat.mul_add_div hT, Nat.add_div_right _ hT,
      Nat.div_eq_of_lt (by omega : n % T - 1 < T)]

/-- C4: for every window of `seq_length` per-step losses processed by the
truncated-BPTT loop with truncation length `T` (`optimize_per_n_step`), the
number of optimizer steps taken for that window is exactly
`⌈seq_length / T⌉ = (seq_length + T - 1) / T`: one at each full multiple of
`T`, plus one for a final partial segment, taken because `total_loss` is then
a tensor and not the falsy int `0`. -/
theorem trainWindow_step_count (losses : List FVal) (T : Nat) (hT : 0 < T) :
    (trainWindow losses T).length = (losses.length + T - 1) / T := by
  rw [trainWindow_length_eq,
    trainLoopSteps_count T hT losses 0 Accum.intZero [] (by simp),
    ceil_div_eq _ _ hT]
  simp

/-- C4 witness: a window of length 7 with truncation length 3 yields exactly
3 optimizer steps (segments of 3, 3, 1). -/
theorem trainWindow_step_count_witness :
    0 < 3 ∧ (trainWindow (List.replicate 7 (FVal.fin 1)) 3).length = 3 := by
  refine ⟨by decide, ?_⟩
  rw [trainWindow_step_count (List.replicate 7 (FVal.fin 1)) 3 (by decide)]
  decide

/-- Helper: a non-finite value is absorbing for `FVal.add`. -/
lemma FVal.add_nonfin_right (u : FVal) : FVal.add u FVal.nonfin = FVal.nonfin := by
  cases u <;> rfl

/-- Helper: if a non-finite value sits in the remaining losses, in the
accumulator, or in an already-recorded optimizer step, then some optimizer
step of the rest of the loop consumes a non-finite accumulated loss (or it is
still pending in the final accumulator). -/
lemma trainLoopSteps_nonfin (T : Nat) :
    ∀ (losses : List FVal) (t : Nat) (accum : Accum) (steps : List FVal),
    (FVal.nonfin ∈ losses ∨ accum = Accum.tensor FVal.nonfin ∨ FVal.nonfin ∈ steps) →
    FVal.nonfin ∈ (trainLoopSteps T losses t accum steps).2
      ∨ (trainLoopSteps T losses t accum steps).1 = Accum.tensor FVal.nonfin := by
  intro losses
  induction losses with
  | nil =>
    intro t accum steps h
    rcases h with h | h | h
    · simp at h
    · exact Or.inr h
    · exact Or.inl h
  | cons l rest ih =>
    intro t accum steps h
    simp only [trainLoopSteps]
    have hv : l = FVal.nonfin ∨ accum = Accum.tensor FVal.nonfin →
        accum.addLoss (l.divNat T) = FVal.nonfin := by
      intro hc
      rcases hc with hc | hc
      · subst hc
        cases accum with
        | intZero => rfl
        | tensor u => exact FVal.add_nonfin_right u
      · subst hc
        rfl
    by_cases hb : (t + 1) % T = 0
    · rw [if_pos hb]
      apply ih
      rcases h with h | h | h
      · rcases List.mem_cons.mp h with h | h
        · exact Or.inr (Or.inr (List.mem_append_right _ (by simp [hv (Or.inl h.symm)])))
        · exact Or.inl h
      · exact Or.inr (Or.inr (List.mem_append_right _ (by simp [hv (Or.inr h)])))
      · exact Or.inr (Or.inr (List.mem_append_left _ h))
    · rw [if_neg hb]
      apply ih
      rcases h with h | h | h
      · rcases List.mem_cons.mp h with h | h
        · exact Or.inr (Or.inl (by rw [hv (Or.inl h.symm)]))
        · exact Or.inl h
      · exact Or.inr (Or.inl (by rw [hv (Or.inr h)]))
      · exact Or.inr (Or.inr h)

/-- C5 counterexample.
A window consisting of a single non-finite step loss with truncation length
1 still takes an optimizer step (the step list is non-empty, and it consumes
the non-finite accumulated loss): the training loop of main.py lines 154-183
contains no finiteness check, so the update is not skipped. -/
theorem trainWindow_nonfinite_not_skipped :
    trainWindow [FVal.nonfin] 1 ≠ [] := by
  decide

/-- C5 (amended): the training loop never skips an optimizer step on a
non-finite loss: whenever some per-step loss of the window is non-finite
(NaN/Inf), a non-finite accumulated loss is consumed by one of the
backward/optimizer steps of that window — the gradient update is applied
from the bad segment, not skipped. -/
theorem trainWindow_nonfin_reaches_step (losses : List FVal) (T : Nat)
    (h : FVal.nonfin ∈ losses) :
    FVal.nonfin ∈ trainWindow losses T := by
  have key := trainLoopSteps_nonfin T losses 0 Accum.intZero [] (Or.inl h)
  unfold trainWindow
  rcases hr : trainLoopSteps T losses 0 Accum.intZero [] with ⟨a, steps⟩
  rw [hr] at key
  cases a with
  | intZero =>
    rcases key with k | k
    · exact k
    · exact absurd k (by simp)
  | tensor v =>
    rcases key with k | k
    · exact List.mem_append_left _ k
    · simp only [Accum.tensor.injEq] at k
      exact List.mem_append_right _ (by simp [k])

/-- C5 witness: with step losses `[1, NaN]` and `optimize_per_n_step = 40`,
the single optimizer step of the window consumes a non-finite loss. -/
theorem trainWindow_nonfin_reaches_step_witness :
    FVal.nonfin ∈ [FVal.fin 1, FVal.nonfin]
      ∧ FVal.nonfin ∈ trainWindow [FVal.fin 1, FVal.nonfin] 40 :=
  ⟨by decide, trainWindow_nonfin_reaches_step [FVal.fin 1, FVal.nonfin] 40 (by decide)⟩

/-! ## Pose localizer (`Comma2k19SequenceDataset.__getitem__`, data.py lines 233-240)

Positions are 3-vectors, orientations quaternions, both over `ℚ`. -/

/-- A 3-vector of rationals (an ECEF position or a local coordinate). -/
@[ext]
structure V3 where
  x : ℚ
  y : ℚ
  z : ℚ
  deriving DecidableEq, Repr

/-- Componentwise vector addition. -/
def V3.add (a b : V3) : V3 := ⟨a.x + b.x, a.y + b.y, a.z + b.z⟩

/-- Componentwise vector subtraction. -/
def V3.sub (a b : V3) : V3 := ⟨a.x - b.x, a.y - b.y, a.z - b.z⟩

/-- The zero vector. -/
def v3zero : V3 := ⟨0, 0, 0⟩

/-- A quaternion `(w, x, y, z)`, scalar part first, as stored in the
`frame_orientations` logs. -/
@[ext]
structure Quat where
  w : ℚ
  x : ℚ
  y : ℚ
  z : ℚ
  deriving DecidableEq, Repr

/-- Hamilton product: `p.mul q` rotates first by `q`, then by `p`. -/
def Quat.mul (p q : Quat) : Quat :=
  ⟨p.w * q.w - p.x * q.x - p.y * q.y - p.z * q.z,
   p.w * q.x + p.x * q.w + p.y * q.z - p.z * q.y,
   p.w * q.y - p.x * q.z + p.y * q.w + p.z * q.x,
   p.w * q.z + p.x * q.y - p.y * q.x + p.z * q.w⟩

/-- The identity quaternion. -/
def quatOne : Quat := ⟨1, 0, 0, 0⟩

/-- A 3×3 rational matrix, entries `aRC` by (row, column). -/
@[ext]
structure M3 where
  a00 : ℚ
  a01 : ℚ
  a02 : ℚ
  a10 : ℚ
  a11 : ℚ
  a12 : ℚ
  a20 : ℚ
  a21 : ℚ
  a22 : ℚ
  deriving DecidableEq, Repr

/-- Matrix-vector product (`np.einsum('ij,kj->ki', M, ...)` applies `M` to
each row vector). -/
def M3.mulVec (m : M3) (v : V3) : V3 :=
  ⟨m.a00 * v.x + m.a01 * v.y + m.a02 * v.z,
   m.a10 * v.x + m.a11 * v.y + m.a12 * v.z,
   m.a20 * v.x + m.a21 * v.y + m.a22 * v.z⟩

/-- Matrix transpose (`.T` in numpy). -/
def M3.transpose (m : M3) : M3 :=
  ⟨m.a00, m.a10, m.a20,
   m.a01, m.a11, m.a21,
   m.a02, m.a12, m.a22⟩

/-- Matrix product. -/
def M3.mul (m n : M3) : M3 :=
  ⟨m.a00 * n.a00 + m.a01 * n.a10 + m.a02 * n.a20,
   m.a00 * n.a01 + m.a01 * n.a11 + m.a02 * n.a21,
   m.a00 * n.a02 + m.a01 * n.a12 + m.a02 * n.a22,
   m.a10 * n.a00 + m.a11 * n.a10 + m.a12 * n.a20,
   m.a10 * n.a01 + m.a11 * n.a11 + m.a12 * n.a21,
   m.a10 * n.a02 + m.a11 * n.a12 + m.a12 * n.a22,
   m.a20 * n.a00 + m.a21 * n.a10 + m.a22 * n.a20,
   m.a20 * n.a01 + m.a21 * n.a11 + m.a22 * n.a21,
   m.a20 * n.a02 + m.a21 * n.a12 + m.a22 * n.a22⟩

/-- Modelled from the spec: `orient.rot_from_quat` lives in
`utils_comma2k19/orientation.py`, which is part of this repository but not
included under `src/`.  Per spec §4.1 it is "the standard
quaternion-to-rotation-matrix formula; no normalization correction applied —
caller must supply unit quaternions".  For a unit quaternion it is the matrix
of the conjugation `v ↦ q v q*`, i.e. the local-to-global
(`ecef_from_local`) rotation. -/
def rot_from_quat (q : Quat) : M3 :=
  ⟨q.w * q.w + q.x * q.x - q.y * q.y - q.z * q.z,
   2 * (q.x * q.y - q.w * q.z),
   2 * (q.x * q.z + q.w * q.y),
   2 * (q.x * q.y + q.w * q.z),
   q.w * q.w - q.x * q.x + q.y * q.y - q.z * q.z,
   2 * (q.y * q.z - q.w * q.x),
   2 * (q.x * q.z - q.w * q.y),
   2 * (q.y * q.z + q.w * q.x),
   q.w * q.w - q.x * q.x - q.y * q.y + q.z * q.z⟩

/-- The per-anchor localization of `Comma2k19SequenceDataset.__getitem__`
(data.py lines 235-239):

    ecef_from_local = orient.rot_from_quat(frame_orientations[i])
    local_from_ecef = ecef_from_local.T
    frame_positions_local = np.einsum('ij,kj->ki', local_from_ecef,
                                      frame_positions - frame_positions[i])
    future_poses.append(frame_positions_local[i: i+10])

Note the slice length is the literal `10` of the source, not `num_pts`. -/
def localTraj (positions : List V3) (orientations : List Quat) (i : Nat) : List V3 :=
  (((positions.map
      (fun p => ((rot_from_quat (orientations.getD i quatOne)).transpose).mulVec
        (p.sub (positions.getD i v3zero)))).drop i).take 10)

/-- The localization loop `for i in range(self.fix_seq_length)` of
data.py lines 233-240: one local trajectory per anchor index. -/
def localize (positions : List V3) (orientations : List Quat) (fixSeqLength : Nat) :
    List (List V3) :=
  (List.range fixSeqLength).map (localTraj positions orientations)

/-- Stated from C1's words, not from the source: local point `k` at anchor
`i` as `R_i · delta_k`, with `R_i = rot_from_quat(orientations[i])` itself
(not its transpose) serving as the global-to-local conversion matrix. -/
def localPointClaimed (positions : List V3) (orientations : List Quat) (i k : Nat) : V3 :=
  (rot_from_quat (orientations.getD i quatOne)).mulVec
    ((positions.getD (i + k) v3zero).sub (positions.getD i v3zero))

/-- Helper: element `k` of the local trajectory at anchor `i`, for `k` within
the hardcoded horizon 10 and `i + k` within the sequence. -/
lemma localTraj_getD (positions : List V3) (orientations : List Quat) (i k : Nat)
    (hk : k < 10) (hik : i + k < positions.length) :
    (localTraj positions orientations i).getD k v3zero
      = (rot_from_quat (orientations.getD i quatOne)).transpose.mulVec
          ((positions.getD (i + k) v3zero).sub (positions.getD i v3zero)) := by
  unfold localTraj
  have hlen : i + k < (positions.map (fun p =>
      ((rot_from_quat (orientations.getD i quatOne)).transpose).mulVec
        (p.sub (positions.getD i v3zero)))).length := by
    simpa using hik
  have hg : positions.getD (i + k) v3zero = positions[i + k] := by
    rw [List.getD_eq_getElem?_getD, List.getElem?_eq_getElem hik, Option.getD_some]
  rw [hg, List.getD_eq_getElem?_getD, List.getElem?_take, if_pos hk, List.getElem?_drop,
    List.getElem?_eq_getElem hlen, Option.getD_some, List.getElem_map]

/-- C1 counterexample.
With the unit quaternion `(3/5, 4/5, 0, 0)` and positions
`[(0,0,0), (0,1,0)]`, the localizer's future point `k = 1` at anchor 0
differs from the claimed `R_i · delta_1`: the code applies the transpose of
the standard quaternion-to-rotation matrix (`local_from_ecef =
ecef_from_local.T`, data.py line 236), not that matrix itself. -/
theorem localTraj_ne_claimed_formula :
    (localTraj [⟨0, 0, 0⟩, ⟨0, 1, 0⟩] [⟨3/5, 4/5, 0, 0⟩, ⟨3/5, 4/5, 0, 0⟩] 0).getD 1 v3zero
      ≠ localPointClaimed [⟨0, 0, 0⟩, ⟨0, 1, 0⟩] [⟨3/5, 4/5, 0, 0⟩, ⟨3/5, 4/5, 0, 0⟩] 0 1 := by
  simp only [localTraj, localPointClaimed, rot_from_quat, M3.transpose, M3.mulVec, V3.sub,
    v3zero, quatOne, List.map_cons, List.map_nil, List.drop_zero, List.getD_cons_zero,
    List.getD_cons_succ, List.take_succ_cons, List.take_nil, ne_eq, V3.mk.injEq]
  norm_num

/-- C1 (amended): for every anchor `i` the localizer builds
`R_i = rot_from_quat(orientations[i])` by the standard
quaternion-to-rotation-matrix formula and outputs, for each future offset
`k`, the matrix-vector product `R_iᵀ · (positions[i+k] - positions[i])`:
the TRANSPOSE of `R_i` (`local_from_ecef`), not `R_i` itself, serves as the
global-to-local conversion matrix. -/
theorem localTraj_transpose_formula (positions : List V3) (orientations : List Quat)
    (i k : Nat) (hk : k < 10) (hik : i + k < positions.length) :
    (localTraj positions orientations i).getD k v3zero
      = (rot_from_quat (orientations.getD i quatOne)).transpose.mulVec
          ((positions.getD (i + k) v3zero).sub (positions.getD i v3zero)) :=
  localTraj_getD positions orientations i k hk hik

/-- C1 witness: the amended formula at the counterexample's input. -/
theorem localTraj_transpose_formula_witness :
    1 < 10 ∧ 0 + 1 < ([⟨0, 0, 0⟩, ⟨0, 1, 0⟩] : List V3).length
      ∧ (localTraj [⟨0, 0, 0⟩, ⟨0, 1, 0⟩] [⟨3/5, 4/5, 0, 0⟩, ⟨3/5, 4/5, 0, 0⟩] 0).getD 1 v3zero
        = (rot_from_quat (([⟨3/5, 4/5, 0, 0⟩, ⟨3/5, 4/5, 0, 0⟩] : List Quat).getD 0 quatOne)).transpose.mulVec
            ((([⟨0, 0, 0⟩, ⟨0, 1, 0⟩] : List V3).getD (0 + 1) v3zero).sub
              (([⟨0, 0, 0⟩, ⟨0, 1, 0⟩] : List V3).getD 0 v3zero)) :=
  ⟨by decide, by decide,
    localTraj_transpose_formula [⟨0, 0, 0⟩, ⟨0, 1, 0⟩] [⟨3/5, 4/5, 0, 0⟩, ⟨3/5, 4/5, 0, 0⟩]
      0 1 (by decide) (by decide)⟩

/-- Helper: entry `i` of `localize` for an anchor within `fix_seq_length`. -/
lemma localize_getD (positions : List V3) (orientations : List Quat)
    (fixSeqLength i : Nat) (hi : i < fixSeqLength) :
    (localize positions orientations fixSeqLength).getD i []
      = localTraj positions orientations i := by
  unfold localize
  have hlen : i < ((List.range fixSeqLength).map (localTraj positions orientations)).length := by
    simpa using hi
  rw [List.getD_eq_getElem?_getD, List.getElem?_eq_getElem hlen, Option.getD_some,
    List.getElem_map, List.getElem_range]

/-- C6: for every input sequence of positions and orientations and every
anchor `i` (within `fix_seq_length` and within the sequence), the first
point (`k = 0`) of the local trajectory produced by the localizer is the
zero vector: `delta_0 = positions[i] - positions[i] = 0`, and the rotation
matrix applied to the zero vector is zero. -/
theorem localize_first_point_zero (positions : List V3) (orientations : List Quat)
    (fixSeqLength i : Nat) (hif : i < fixSeqLength) (hip : i < positions.length) :
    ((localize positions orientations fixSeqLength).getD i []).getD 0 v3zero = v3zero := by
  rw [localize_getD positions orientations fixSeqLength i hif,
    localTraj_getD positions orientations i 0 (by omega) (by omega)]
  have h0 : positions.getD (i + 0) v3zero = positions.getD i v3zero := by
    rw [Nat.add_zero]
  rw [h0]
  ext <;> simp [M3.mulVec, M3.transpose, V3.sub, v3zero]

/-- C6 witness: a concrete two-pose sequence with anchor 0. -/
theorem localize_first_point_zero_witness :
    0 < 2 ∧ 0 < ([⟨1, 2, 3⟩, ⟨4, 5, 6⟩] : List V3).length
      ∧ ((localize [⟨1, 2, 3⟩, ⟨4, 5, 6⟩] [quatOne, quatOne] 2).getD 0 []).getD 0 v3zero
        = v3zero :=
  ⟨by decide, by decide,
    localize_first_point_zero [⟨1, 2, 3⟩, ⟨4, 5, 6⟩] [quatOne, quatOne] 2 0
      (by decide) (by decide)⟩

/-- C8 (code bug): the label slice is the hardcoded literal `10`
(`frame_positions_local[i: i+10]`, data.py line 239), not `num_pts`.
With `num_pts = 20` (the default of main.py) the window arrays have
`fix_seq_length + num_pts = 60` entries, yet the label at anchor 0 holds 10
future positions, not `num_pts = 20` as the claim — and the code's own shape
comment `# torch.Size([N, num_pts, 3])` (data.py line 244) — state. -/
theorem localTraj_horizon_hardcoded_ten :
    (localTraj (List.replicate (40 + 20) v3zero) (List.replicate (40 + 20) quatOne) 0).length
      = 10 := by
  decide

/-- Helper: adding the same translation to both operands cancels in a
difference. -/
lemma V3.add_sub_add (a b c : V3) : (a.add c).sub (b.add c) = a.sub b := by
  ext <;> simp [V3.add, V3.sub]

/-- Helper: matrix-vector multiplication distributes over vector
subtraction. -/
lemma M3.mulVec_sub (m : M3) (u v : V3) :
    m.mulVec (u.sub v) = (m.mulVec u).sub (m.mulVec v) := by
  ext <;> simp [M3.mulVec, V3.sub] <;> ring

/-- Helper: matrix product acts as composition on vectors. -/
lemma M3.mul_mulVec (m n : M3) (v : V3) :
    (m.mul n).mulVec v = m.mulVec (n.mulVec v) := by
  ext <;> simp [M3.mul, M3.mulVec] <;> ring

/-- Helper: transposition reverses matrix products. -/
lemma M3.transpose_mul (m n : M3) :
    (m.mul n).transpose = (n.transpose).mul (m.transpose) := by
  ext <;> simp [M3.mul, M3.transpose] <;> ring

/-- Helper: the homogeneous quaternion-to-rotation formula is multiplicative:
it carries the Hamilton product to the matrix product. -/
lemma rot_from_quat_mul (p q : Quat) :
    rot_from_quat (p.mul q) = (rot_from_quat p).mul (rot_from_quat q) := by
  ext <;> simp [rot_from_quat, Quat.mul, M3.mul] <;> ring

/-- Helper: for a unit quaternion, the transpose of its rotation matrix is a
left inverse of the matrix. -/
lemma rot_transpose_mulVec_rot (q : Quat) (v : V3)
    (hq : q.w * q.w + q.x * q.x + q.y * q.y + q.z * q.z = 1) :
    (rot_from_quat q).transpose.mulVec ((rot_from_quat q).mulVec v) = v := by
  have hx : ((rot_from_quat q).transpose.mulVec ((rot_from_quat q).mulVec v)).x
      = (q.w * q.w + q.x * q.x + q.y * q.y + q.z * q.z)
        * ((q.w * q.w + q.x * q.x + q.y * q.y + q.z * q.z) * v.x) := by
    simp [rot_from_quat, M3.transpose, M3.mulVec]
    ring
  have hy : ((rot_from_quat q).transpose.mulVec ((rot_from_quat q).mulVec v)).y
      = (q.w * q.w + q.x * q.x + q.y * q.y + q.z * q.z)
        * ((q.w * q.w + q.x * q.x + q.y * q.y + q.z * q.z) * v.y) := by
    simp [rot_from_quat, M3.transpose, M3.mulVec]
    ring
  have hz : ((rot_from_quat q).transpose.mulVec ((rot_from_quat q).mulVec v)).z
      = (q.w * q.w + q.x * q.x + q.y * q.y + q.z * q.z)
        * ((q.w * q.w + q.x * q.x + q.y * q.y + q.z * q.z) * v.z) := by
    simp [rot_from_quat, M3.transpose, M3.mulVec]
    ring
  ext
  · rw [hx, hq, one_mul, one_mul]
  · rw [hy, hq, one_mul, one_mul]
  · rw [hz, hq, one_mul, one_mul]

/-- Helper: one anchor's local trajectory is invariant under a rigid
transform of the whole global pose sequence. -/
lemma localTraj_rigid (positions : List V3) (orientations : List Quat)
    (qT : Quat) (tr : V3)
    (hq : qT.w * qT.w + qT.x * qT.x + qT.y * qT.y + qT.z * qT.z = 1)
    (i : Nat) (hip : i < positions.length) (hio : i < orientations.length) :
    localTraj (positions.map (fun p => ((rot_from_quat qT).mulVec p).add tr))
      (orientations.map (fun q => qT.mul q)) i
      = localTraj positions orientations i := by
  unfold localTraj
  have ho : (orientations.map (fun q => qT.mul q)).getD i quatOne
      = qT.mul (orientations.getD i quatOne) := by
    have h1 : orientations.getD i quatOne = orientations[i] := by
      rw [List.getD_eq_getElem?_getD, List.getElem?_eq_getElem hio, Option.getD_some]
    have h2 : i < (orientations.map (fun q => qT.mul q)).length := by simpa using hio
    rw [List.getD_eq_getElem?_getD, List.getElem?_eq_getElem h2, Option.getD_some,
      List.getElem_map, h1]
  have hp : (positions.map (fun p => ((rot_from_quat qT).mulVec p).add tr)).getD i v3zero
      = ((rot_from_quat qT).mulVec (positions.getD i v3zero)).add tr := by
    have h1 : positions.getD i v3zero = positions[i] := by
      rw [List.getD_eq_getElem?_getD, List.getElem?_eq_getElem hip, Option.getD_some]
    have h2 : i < (positions.map (fun p => ((rot_from_quat qT).mulVec p).add tr)).length := by
      simpa using hip
    rw [List.getD_eq_getElem?_getD, List.getElem?_eq_getElem h2, Option.getD_some,
      List.getElem_map, h1]
  rw [ho, hp, List.map_map]
  congr 1
  congr 1
  refine List.map_congr_left fun p _ => ?_
  simp only [Function.comp_apply]
  rw [V3.add_sub_add, ← M3.mulVec_sub, rot_from_quat_mul, M3.transpose_mul, M3.mul_mulVec,
    rot_transpose_mulVec_rot qT _ hq]

/-- C7: applying one rigid transform to the entire input — positions mapped
to `Q·p + t` and orientations left-composed with the unit quaternion of `Q`
— leaves the localizer's output unchanged at every anchor and every future
offset. -/
theorem localize_rigid_invariant (positions : List V3) (orientations : List Quat)
    (fixSeqLength : Nat) (qT : Quat) (tr : V3)
    (hq : qT.w * qT.w + qT.x * qT.x + qT.y * qT.y + qT.z * qT.z = 1)
    (hp : fixSeqLength ≤ positions.length) (ho : fixSeqLength ≤ orientations.length) :
    localize (positions.map (fun p => ((rot_from_quat qT).mulVec p).add tr))
      (orientations.map (fun q => qT.mul q)) fixSeqLength
      = localize positions orientations fixSeqLength := by
  unfold localize
  refine List.map_congr_left fun i hi => ?_
  have hilt := List.mem_range.mp hi
  exact localTraj_rigid positions orientations qT tr hq i (by omega) (by omega)

/-- C7 witness: a two-pose straight-line sequence, rotated by the unit
quaternion `(3/5, 4/5, 0, 0)` and translated by `(1, 2, 3)`. -/
theorem localize_rigid_invariant_witness :
    ((3 : ℚ)/5 * ((3 : ℚ)/5) + (4 : ℚ)/5 * ((4 : ℚ)/5) + 0 * 0 + 0 * 0 = 1)
      ∧ 2 ≤ ([⟨0, 0, 0⟩, ⟨1, 0, 0⟩] : List V3).length
      ∧ 2 ≤ ([quatOne, quatOne] : List Quat).length
      ∧ localize (([⟨0, 0, 0⟩, ⟨1, 0, 0⟩] : List V3).map
            (fun p => ((rot_from_quat ⟨3/5, 4/5, 0, 0⟩).mulVec p).add ⟨1, 2, 3⟩))
          (([quatOne, quatOne] : List Quat).map (fun q => Quat.mul ⟨3/5, 4/5, 0, 0⟩ q)) 2
        = localize [⟨0, 0, 0⟩, ⟨1, 0, 0⟩] [quatOne, quatOne] 2 :=
  ⟨by norm_num, by decide, by decide,
    localize_rigid_invariant [⟨0, 0, 0⟩, ⟨1, 0, 0⟩] [quatOne, quatOne] 2
      ⟨3/5, 4/5, 0, 0⟩ ⟨1, 2, 3⟩ (by norm_num) (by decide) (by decide)⟩

/-! ## Validation skip (`main`, main.py lines 185-190) -/

/-- The statements making up the tail of one epoch of `main`'s loop. -/
inductive Stmt where
  | trainEpoch : Stmt
  | printSkippingVal : Stmt
  | continueEpochLoop : Stmt
  | runValidationLoop : Stmt
  deriving DecidableEq, Repr

/-- One epoch body of `main` (main.py lines 149-190): the training loop over
batches, then — only when `(epoch + 1) % 10 == 0` — the guarded block

    print('skipping val...')
    continue
    for batch_idx, data in enumerate(val_dataloader): ... model.validation_step(data)

where the validation loop sits after the `continue`, inside the guard. -/
def epochStmts (epoch : Nat) : List Stmt :=
  [Stmt.trainEpoch]
    ++ (if (epoch + 1) % 10 = 0 then
          [Stmt.printSkippingVal, Stmt.continueEpochLoop, Stmt.runValidationLoop]
        else [])

/-- Python `continue` semantics: execution of the body stops at the first
`continue`; statements after it never run. -/
def execUpToContinue : List Stmt → List Stmt
  | [] => []
  | Stmt.continueEpochLoop :: _ => [Stmt.continueEpochLoop]
  | s :: rest => s :: execUpToContinue rest

/-- The statements actually executed in the epoch body for `epoch`. -/
def executedStmts (epoch : Nat) : List Stmt :=
  execUpToContinue (epochStmts epoch)

/-- C9: for every epoch, the validation loop body is never executed: on
epochs where the guard `(epoch + 1) % 10 == 0` fires, control reaches the
`continue` first; on all other epochs the guard excludes the block entirely
— so `validation_step` is never invoked during training. -/
theorem validation_never_runs (epoch : Nat) :
    Stmt.runValidationLoop ∉ executedStmts epoch := by
  unfold executedStmts epochStmts
  by_cases h : (epoch + 1) % 10 = 0
  · rw [if_pos h]
    decide
  · rw [if_neg h]
    decide

/-! ## Forward-coordinate clamp (`PlanningDataset.__getitem__`, data.py lines 66-113) -/

/-- `future_poses[:, 0] = future_poses[:, 0].clamp(1e-2)` (data.py line 72,
"the car will never go backward"): clamp the first (forward) coordinate from
below at 0.01. -/
def clampForward (r : V3) : V3 := ⟨max r.x (1/100), r.y, r.z⟩

/-- The horizontal-flip augmentation on labels: `future_poses[:, 1] *= -1`
(data.py line 87). -/
def flipY (r : V3) : V3 := ⟨r.x, -r.y, r.z⟩

/-- The pose pipeline of `PlanningDataset.__getitem__` (data.py lines 70-87):
first clamp the forward coordinate of every row, then — when augmentation is
enabled, the split is `train`, and the coin flip fires — negate the lateral
coordinate of every row.  The warp augmentation touches only images. -/
def getitemFuturePoses (rows : List V3) (enableAug isTrain coinFlip : Bool) : List V3 :=
  if enableAug && isTrain && coinFlip then (rows.map clampForward).map flipY
  else rows.map clampForward

/-- C10: every future-pose row returned by `PlanningDataset.__getitem__` has
first coordinate at least `1e-2`: the clamp runs before any augmentation and
the only label augmentation (the flip) leaves the first coordinate
untouched, so single-frame training labels never indicate zero or backward
forward motion. -/
theorem getitemFuturePoses_forward_min (rows : List V3) (enableAug isTrain coinFlip : Bool)
    (r : V3) (hr : r ∈ getitemFuturePoses rows enableAug isTrain coinFlip) :
    (1 : ℚ)/100 ≤ r.x := by
  unfold getitemFuturePoses at hr
  split at hr
  · obtain ⟨s, hs, rfl⟩ := List.mem_map.mp hr
    obtain ⟨p, hp, rfl⟩ := List.mem_map.mp hs
    simpa [flipY, clampForward] using le_max_right p.x ((1 : ℚ)/100)
  · obtain ⟨p, hp, rfl⟩ := List.mem_map.mp hr
    simpa [clampForward] using le_max_right p.x ((1 : ℚ)/100)

/-- C10 witness: the zero row is clamped to forward coordinate `1/100`. -/
theorem getitemFuturePoses_forward_min_witness :
    (⟨1/100, 0, 0⟩ : V3) ∈ getitemFuturePoses [⟨0, 0, 0⟩] false false false
      ∧ (1 : ℚ)/100 ≤ (⟨1/100, 0, 0⟩ : V3).x := by
  have hmem : (⟨1/100, 0, 0⟩ : V3) ∈ getitemFuturePoses [⟨0, 0, 0⟩] false false false := by
    have hmax : max (0 : ℚ) (1/100) = 1/100 := max_eq_right (by norm_num)
    simp [getitemFuturePoses, clampForward, hmax]
  exact ⟨hmem, getitemFuturePoses_forward_min [⟨0, 0, 0⟩] false false false _ hmem⟩
